import Mathlib

/-!
Waterhammer: run `go test` until it fails.

A shallow embedding of `waterhammer.go`.  The program is a sequential driver
(`main`, `main2`, `round`, `roundInner`) around one subprocess and two
goroutines that drain the subprocess's output streams.

Modelling conventions.

* A Go `string` is a Lean `String`; `+` is `++`.  The only string operations the
  program uses are `strings.Contains`, `strings.Split` with separator `" "` and
  `fmt.Sprintf`.
* Everything the program does to the outside world is recorded, in order, as a
  list of `Effect`s.  The terminal contents and the two files under `/tmp` at any
  moment are obtained by replaying a prefix of that list.
* Everything the outside world decides (whether `os.Create` fails, what the
  subprocess writes and how the two drainer goroutines are interleaved, how the
  subprocess exits, whether the 30 s deadline has fired) is an input, `RoundEnv`.
* Two `fmt` behaviours are not unfolded and are taken as parameters (`Fmt`):
  the verb `%q`, and `Sprintf` applied to a format string with no operands.
-/

namespace Waterhammer

/-! ## Strings -/

/-- Prefix test on character lists. -/
def hasPrefixChars : List Char → List Char → Bool
  | _, [] => true
  | [], _ :: _ => false
  | c :: cs, p :: ps => c == p && hasPrefixChars cs ps

/-- Substring test on character lists: does `sub` occur in `s` at some offset? -/
def containsChars : List Char → List Char → Bool
  | [], sub => hasPrefixChars [] sub
  | c :: cs, sub => hasPrefixChars (c :: cs) sub || containsChars cs sub

/-- Go `strings.Contains(s, substr)`. -/
def strContains (s substr : String) : Bool :=
  containsChars s.data substr.data

/-- Splitting a character list at every space; the pieces between (and around)
the spaces, in order.  There is always at least one piece. -/
def splitChars : List Char → List (List Char)
  | [] => [[]]
  | c :: cs =>
    if c = ' ' then [] :: splitChars cs
    else
      match splitChars cs with
      | [] => [[c]]
      | p :: ps => (c :: p) :: ps

/-- Go `strings.Split(s, " ")`. -/
def strSplit (s : String) : List String :=
  (splitChars s.data).map String.mk

/-- Go `%v` applied to an `int`: signed decimal. -/
def fmtInt (i : Int) : String :=
  toString i

/-- Go `int` on a 64-bit platform is a 64-bit two's complement integer: the
value an arithmetic result takes after wrap-around. -/
def wrapInt (n : Int) : Int :=
  (n + 2 ^ 63) % 2 ^ 64 - 2 ^ 63

/-- The `fmt` behaviours that are left abstract. -/
structure Fmt where
  /-- The verb `%q` on a string: the Go-syntax quoted string. -/
  quote : String → String
  /-- The call `fmt.Sprintf(format)` without operands. -/
  sprintf0 : String → String

/-- A concrete `Fmt` for evaluating examples.  It agrees with Go on strings
that contain no quote, backslash or unprintable character (`quote`) and no
percent sign (`sprintf0`). -/
def plainFmt : Fmt :=
  ⟨fun s => "\"" ++ s ++ "\"", fun s => s⟩

/-! ## Errors -/

/-- The two error values of package `context`. -/
inductive CtxErr
  | canceled
  | deadlineExceeded
  deriving DecidableEq, Repr

/-- A Go `error` value as far as this program can tell them apart. -/
inductive GoError
  /-- A value made by `fmt.Errorf`, with its message. -/
  | text (msg : String)
  /-- The value `ctx.Err()` of a done context. -/
  | ctx (e : CtxErr)
  /-- A value handed back by `os` or `os/exec`, with its message. -/
  | sys (msg : String)
  deriving DecidableEq, Repr

/-- The method `Error()`, which is what `%v` prints for an error. -/
def GoError.message : GoError → String
  | .text msg => msg
  | .ctx .canceled => "context canceled"
  | .ctx .deadlineExceeded => "context deadline exceeded"
  | .sys msg => msg

/-- Go `%v` applied to a possibly nil error returned by `cmd.Wait()`, given by
its message. -/
def fmtExit : Option String → String
  | none => "<nil>"
  | some msg => msg

/-! ## Effects -/

/-- The command handed to `exec.CommandContext`: program name and arguments. -/
structure Cmd where
  name : String
  args : List String
  deriving DecidableEq, Repr

/-- One observable action of the program. -/
inductive Effect
  /-- Bytes written to the program's own standard output (the terminal). -/
  | print (s : String)
  /-- The driver called `round(ctx, filter)`. -/
  | callRound (filter : String)
  /-- The call `os.Create("/tmp/test.log.swp")` succeeded. -/
  | create
  /-- The subprocess was started by `cmd.Start()`. -/
  | spawn (cmd : Cmd)
  /-- A tee reader copied bytes into the file opened by `os.Create`. -/
  | write (bytes : String)
  /-- The call `os.Rename("/tmp/test.log.swp", "/tmp/test.log")` succeeded. -/
  | rename
  deriving DecidableEq, Repr

/-- How a call ends. -/
inductive Outcome
  /-- The call returned this `error` (`none` is `nil`). -/
  | returned (err : Option GoError)
  /-- The call is stuck for ever in `wg.Wait()`. -/
  | blocked
  /-- The driver loop is still running when the supplied rounds are used up. -/
  | running
  /-- The call ended in a run-time panic. -/
  | panicked
  deriving DecidableEq, Repr

/-! ## Logging -/

/-- The constant `globalVerbose`. -/
def globalVerbose : Bool := false

/-- The package-level `log(ctx, verbose, format, args...)`, given the already
formatted message. -/
def log (verbose : Bool) (msg : String) : List Effect :=
  if !verbose || globalVerbose then [Effect.print ("[H] " ++ msg ++ "\n")] else []

/-- The closure `log` inside `driveScanner`, which shadows the package-level
one, given the name of the stream and the already formatted message.  On the
branch for a stream other than stdout the message, prefixed with the stream
name, is handed to the package-level `log` as a format string without operands. -/
def scannerLog (lib : Fmt) (name : String) (verbose : Bool) (msg : String) : List Effect :=
  if !verbose || globalVerbose then
    if name = "stdout" then [Effect.print (msg ++ "\n")]
    else log false (lib.sprintf0 ("(" ++ name ++ ") " ++ msg))
  else []

/-- The body of the loop `for scanner.Scan()` for one line (lines 118 to 133). -/
def scanLine (lib : Fmt) (name : String) (line : String) : List Effect :=
  (if strContains line "testing: warning: no tests to run" then
      scannerLog lib name false "NO TESTS RUN" else []) ++
  (if strContains line "=== RUN" then scannerLog lib name false line else []) ++
  (if strContains line "--- FAIL" then scannerLog lib name false line else []) ++
  (if strContains line "--- PASS" then scannerLog lib name false line else []) ++
  (if strContains line "_test.go" then scannerLog lib name false line else [])

/-! ## The two drainer goroutines -/

/-- The two output streams of the subprocess. -/
inductive Stream
  | stdout
  | stderr
  deriving DecidableEq, Repr

/-- The `name` argument `driveScanner` is called with for a stream. -/
def Stream.name : Stream → String
  | .stdout => "stdout"
  | .stderr => "stderr"

/-- One step of one of the two drainer goroutines.  The order of the steps of
the two goroutines relative to each other is chosen by the scheduler and by the
subprocess, so a round is given the interleaved list of steps. -/
inductive DrainEvent
  /-- A `Read` on the stream's tee reader returned `bytes`, which the tee reader
  wrote to the swap file. -/
  | tee (s : Stream) (bytes : String)
  /-- The call `scanner.Scan()` returned true and `scanner.Text()` is `line`. -/
  | scan (s : Stream) (line : String)
  /-- The call `scanner.Scan()` returned false and `scanner.Err()` is `err`
  (`none` at end of stream, `some msg` after a read error). -/
  | stop (s : Stream) (err : Option String)
  deriving DecidableEq, Repr

/-- The stream a step belongs to. -/
def DrainEvent.stream : DrainEvent → Stream
  | .tee s _ => s
  | .scan s _ => s
  | .stop s _ => s

/-- The state shared by `roundInner` and its goroutines while draining. -/
structure DrainState where
  /-- The counter of the `sync.WaitGroup`. -/
  wg : Nat
  /-- The stdout goroutine has been started and is still in its loop. -/
  outLive : Bool
  /-- The stderr goroutine has been started and is still in its loop. -/
  errLive : Bool
  deriving DecidableEq, Repr

/-- Is the goroutine of stream `s` in its loop? -/
def DrainState.live (st : DrainState) : Stream → Bool
  | .stdout => st.outLive
  | .stderr => st.errLive

/-- The goroutine of stream `s` has left its function. -/
def DrainState.finish (st : DrainState) : Stream → DrainState
  | .stdout => { st with outLive := false }
  | .stderr => { st with errLive := false }

/-- The state before the first call of `driveScanner`: `var wg sync.WaitGroup`. -/
def DrainState.init : DrainState :=
  ⟨0, false, false⟩

/-- The synchronous part of `driveScanner`: `wg.Add(1)` and the `go` statement. -/
def driveScanner (st : DrainState) : Stream → DrainState
  | .stdout => { st with wg := st.wg + 1, outLive := true }
  | .stderr => { st with wg := st.wg + 1, errLive := true }

/-- One step of a drainer goroutine (lines 113 to 144).  A step named for a
goroutine that has already left its function does not happen.

* a tee read writes the bytes to the swap file;
* a scanned line goes through the marker tests of the loop body;
* at end of stream the goroutine logs verbosely and calls `wg.Done()`;
* after a read error the goroutine logs the error and returns.

The counter is at least 1 whenever a goroutine is in its loop
(`drain_liveCount`), so the subtraction is exact. -/
def drainStep (lib : Fmt) (st : DrainState) (ev : DrainEvent) : List Effect × DrainState :=
  if st.live ev.stream then
    match ev with
    | .tee _ bytes => ([Effect.write bytes], st)
    | .scan s line => (scanLine lib s.name line, st)
    | .stop s (some err) =>
      (scannerLog lib s.name false ("scanner error: " ++ err), st.finish s)
    | .stop s none =>
      (scannerLog lib s.name true "scanner complete",
        { st.finish s with wg := st.wg - 1 })
  else ([], st)

/-- The drainer steps of a round, in the order in which they happen. -/
def drain (lib : Fmt) : DrainState → List DrainEvent → List Effect × DrainState
  | st, [] => ([], st)
  | st, ev :: evs =>
    let r := drainStep lib st ev
    let rest := drain lib r.2 evs
    (r.1 ++ rest.1, rest.2)

/-! ## One round -/

/-- What the outside world does during one call of `round`. -/
structure RoundEnv where
  /-- The error of `os.Create`, if it fails, as `%v` prints it. -/
  createErr : Option String
  /-- The error of `cmd.StdoutPipe()`, if it fails. -/
  stdoutPipeErr : Option GoError
  /-- The error of `cmd.StderrPipe()`, if it fails. -/
  stderrPipeErr : Option GoError
  /-- The error of `cmd.Start()`, if it fails. -/
  startErr : Option GoError
  /-- The steps of the two drainer goroutines, interleaved.  A stream without a
  `stop` step is never closed and its goroutine stays in `Scan` for ever. -/
  sched : List DrainEvent
  /-- Whether `os.Rename` succeeds. -/
  renameOk : Bool
  /-- The error of `cmd.Wait()`, if the subprocess did not exit with status 0,
  as `%v` prints it. -/
  exit : Option String
  /-- Whether the 30 second deadline of the round has passed when `roundInner`
  reaches its `select`. -/
  deadlineFired : Bool
  deriving DecidableEq, Repr

/-- A round in which the subprocess prints one passing test on stdout and exits
with status 0 before the deadline. -/
def passingRound : RoundEnv :=
  ⟨none, none, none, none,
    [.tee .stdout "--- PASS: TestA\n", .scan .stdout "--- PASS: TestA", .stop .stderr none,
      .stop .stdout none], true, none, false⟩

/-- A round in which the subprocess prints one failing test on stdout and exits
with status 1 before the deadline. -/
def failingRound : RoundEnv :=
  ⟨none, none, none, none,
    [.tee .stdout "--- FAIL: TestA\n", .scan .stdout "--- FAIL: TestA", .stop .stdout none,
      .stop .stderr none], true, some "exit status 1", false⟩

/-- The state of the wait group and of the goroutines once every drainer step
of the round has happened, after the two calls of `driveScanner`. -/
def drainEnd (lib : Fmt) (env : RoundEnv) : DrainState :=
  (drain lib (driveScanner (driveScanner DrainState.init .stdout) .stderr) env.sched).2

/-- The slice `cmdparts` of `roundInner` (lines 72 to 75). -/
def cmdparts (filter : String) : List String :=
  let filter := if filter = "" then ".*" else filter
  strSplit ("go test -v -run ^" ++ filter ++ "$")

/-- The command `exec.CommandContext(ctx, cmdparts[0], cmdparts[1:]...)`, or
`none` if `cmdparts[0]` is out of range. -/
def buildCmd (filter : String) : Option Cmd :=
  match cmdparts filter with
  | [] => none
  | name :: args => some ⟨name, args⟩

/-- The end of `roundInner` (lines 160 to 173), after `cmd.Wait()` has returned
`exit`: `done` is the error of the context if its `Done` channel is closed at
the `select`. -/
def reconcile (done : Option CtxErr) (exit : Option String) : List Effect × Outcome :=
  match done with
  | some e =>
    (log false ("cmd done & canceled: " ++ fmtExit exit), .returned (some (.ctx e)))
  | none =>
    match exit with
    | some msg => ([], .returned (some (.text ("test failed: " ++ msg))))
    | none => (log true "cmd done", .returned none)

/-- The function `roundInner(ctx, filter)`.  The argument `done` is the state of
`ctx` when the `select` is reached. -/
def roundInner (lib : Fmt) (done : Option CtxErr) (env : RoundEnv) (filter : String) :
    List Effect × Outcome :=
  match env.createErr with
  | some e => ([], .returned (some (.text ("error creating test log file: " ++ e))))
  | none =>
    match buildCmd filter with
    | none => ([Effect.create], .panicked)
    | some cmd =>
      match env.stdoutPipeErr with
      | some e => ([Effect.create], .returned (some e))
      | none =>
        match env.stderrPipeErr with
        | some e => ([Effect.create], .returned (some e))
        | none =>
          match env.startErr with
          | some e => (Effect.create :: log true "cmd start", .returned (some e))
          | none =>
            let started := Effect.create :: (log true "cmd start" ++ [Effect.spawn cmd])
            let st := driveScanner (driveScanner DrainState.init .stdout) .stderr
            let d := drain lib st env.sched
            if d.2.wg = 0 then
              let published := log true "wg wait" ++ d.1 ++ log true "moving log file" ++
                (if env.renameOk then [Effect.rename] else []) ++ log true "cmd wait"
              let r := reconcile done env.exit
              (started ++ published ++ r.1, r.2)
            else (started ++ log true "wg wait" ++ d.1, .blocked)

/-- The function `round(ctx, filter)`: the context handed down is done only
when its 30 second deadline has passed, since its parent is the background
context and `cancel` is deferred. -/
def round (lib : Fmt) (env : RoundEnv) (filter : String) : List Effect × Outcome :=
  roundInner lib (if env.deadlineFired then some .deadlineExceeded else none) env filter

/-! ## The driver -/

/-- The loop of `main2` (lines 43 to 54).  The variable `i` is the Go `int`;
each call of `round` consumes the next `RoundEnv`.  When none is left the loop
is still running. -/
def mainLoop (lib : Fmt) (filter : String) : Int → List RoundEnv → List Effect × Outcome
  | _, [] => ([], .running)
  | i, env :: envs =>
    let r := round lib env filter
    let head := log false ("round " ++ fmtInt i) ++ Effect.callRound filter :: r.1
    match r.2 with
    | .returned (some err) =>
      (head ++ log false ("round " ++ fmtInt i ++ " -> Error: " ++ err.message),
        .returned (some err))
    | .returned none =>
      let rest := mainLoop lib filter (wrapInt (i + 1)) envs
      (head ++ log false ("round " ++ fmtInt i ++ " -> OK") ++ rest.1, rest.2)
    | .blocked => (head, .blocked)
    | .running => (head, .running)
    | .panicked => (head, .panicked)

/-- The variable `filter` of `main2` after lines 30 to 36: `os.Args[1]` if
there is one, and otherwise the zero value of `string`. -/
def argFilter (args : List String) : String :=
  if args.length ≥ 2 then args.getD 1 "" else ""

/-- The function `main2(ctx)`; `args` is `os.Args`. -/
def main2 (lib : Fmt) (args : List String) (envs : List RoundEnv) : List Effect × Outcome :=
  if args.length ≥ 3 then
    (log true "start", .returned (some (.text "too many arguments")))
  else
    let filter := argFilter args
    let r := mainLoop lib filter 0 envs
    (log true "start" ++
      (if filter = "" then log false "filter: all tests"
        else log false ("filter: " ++ lib.quote filter)) ++ r.1, r.2)

/-- How far the process gets. -/
inductive ProcessEnd
  /-- The process terminated with this exit status. -/
  | exited (status : Nat)
  /-- The function `main` has not returned: the driver is still looping, or it
  is blocked in `wg.Wait()`.  What the Go runtime does with a blocked program
  (it aborts a program all of whose goroutines are asleep, with status 2) lies
  outside the embedding. -/
  | pending
  deriving DecidableEq, Repr

/-- The function `main()`.  When it returns the Go runtime ends the process
with status 0; nothing in the program calls `os.Exit`.  A panic ends the
process with status 2.  While `main2` has not returned neither has `main`. -/
def main (lib : Fmt) (args : List String) (envs : List RoundEnv) : List Effect × ProcessEnd :=
  let r := main2 lib args envs
  match r.2 with
  | .returned (some err) =>
    (r.1 ++ [Effect.print ("Error: " ++ err.message ++ "\n")], .exited 0)
  | .returned none => (r.1, .exited 0)
  | .blocked => (r.1, .pending)
  | .running => (r.1, .pending)
  | .panicked => (r.1, .exited 2)

/-! ## Replaying effects -/

/-- Where the file opened by the latest successful `os.Create` can be found.
The program never closes that file, and a tee write goes to the open file, not
to a path. -/
inductive Handle
  /-- No file opened by the program is reachable through either path. -/
  | detached
  /-- The open file is the one at `/tmp/test.log.swp`. -/
  | swap
  /-- The open file is the one at `/tmp/test.log`: it was renamed there. -/
  | canon
  deriving DecidableEq, Repr

/-- The two files the program touches (`none` is a path at which there is no
file) and the place of the open file. -/
structure FS where
  /-- The contents found at `/tmp/test.log.swp`. -/
  swp : Option String
  /-- The contents found at `/tmp/test.log`. -/
  canon : Option String
  /-- The place of the file the tee readers write to. -/
  handle : Handle
  deriving DecidableEq, Repr

/-- What one effect does to the files.  `os.Create` leaves an empty file at the
swap path and opens it; a tee write appends to the open file, wherever it is
now; `os.Rename` moves the file at the swap path over the canonical one, and
the open file goes along with it. -/
def FS.step (fs : FS) : Effect → FS
  | .create => ⟨some "", fs.canon, .swap⟩
  | .write bytes =>
    match fs.handle with
    | .swap => { fs with swp := fs.swp.map (· ++ bytes) }
    | .canon => { fs with canon := fs.canon.map (· ++ bytes) }
    | .detached => fs
  | .rename =>
    match fs.swp with
    | some c =>
      ⟨none, some c,
        match fs.handle with
        | .swap => .canon
        | .canon => .detached
        | .detached => .detached⟩
    | none => fs
  | .print _ => fs
  | .callRound _ => fs
  | .spawn _ => fs

/-- The files after a list of effects. -/
def FS.replay (fs : FS) (effs : List Effect) : FS :=
  effs.foldl FS.step fs

/-- Does every tee write of a list of effects, replayed from `fs`, go to the
file at the swap path? -/
def FS.writesToSwap (fs : FS) : List Effect → Bool
  | [] => true
  | .write bytes :: effs =>
    fs.handle == .swap && (fs.step (.write bytes)).writesToSwap effs
  | e :: effs => (fs.step e).writesToSwap effs

/-- All bytes the tee readers wrote during a list of effects. -/
def written : List Effect → String
  | [] => ""
  | .write bytes :: effs => bytes ++ written effs
  | _ :: effs => written effs

/-- The texts printed on the terminal during a list of effects. -/
def printed : List Effect → List String
  | [] => []
  | .print s :: effs => s :: printed effs
  | _ :: effs => printed effs

/-- The filters of the calls of `round` during a list of effects. -/
def roundCalls : List Effect → List String
  | [] => []
  | .callRound f :: effs => f :: roundCalls effs
  | _ :: effs => roundCalls effs

/-- An effect that only prints. -/
def Effect.isPrint : Effect → Bool
  | .print _ => true
  | _ => false

/-- An effect of a drainer goroutine: printing, or a tee write. -/
def Effect.isDrain : Effect → Bool
  | .print _ => true
  | .write _ => true
  | _ => false

/-- An effect that leaves both files alone. -/
def Effect.isSilent : Effect → Bool
  | .print _ => true
  | .callRound _ => true
  | .spawn _ => true
  | _ => false

/-- An effect other than the driver's call of `round`. -/
def Effect.isInner : Effect → Bool
  | .callRound _ => false
  | _ => true

/-- What the driver does for one round that returns nil, with `i` printed as
the round's index. -/
def okRound (lib : Fmt) (filter : String) (i : Int) (env : RoundEnv) : List Effect :=
  log false ("round " ++ fmtInt i) ++ Effect.callRound filter :: (round lib env filter).1 ++
    log false ("round " ++ fmtInt i ++ " -> OK")

/-- What the driver does for one round that returns the error `err`, with `i`
printed as the round's index. -/
def errRound (lib : Fmt) (filter : String) (i : Int) (env : RoundEnv) (err : GoError) :
    List Effect :=
  log false ("round " ++ fmtInt i) ++ Effect.callRound filter :: (round lib env filter).1 ++
    log false ("round " ++ fmtInt i ++ " -> Error: " ++ err.message)

/-- The line `main2` prints about the filter before the first round. -/
def filterLine (lib : Fmt) (filter : String) : List Effect :=
  if filter = "" then log false "filter: all tests"
  else log false ("filter: " ++ lib.quote filter)

/-- The complete combined output of the subprocess in a round, read off the
steps of the round: the bytes of every tee read of either stream, in the order
in which they were read. -/
def combinedOutput : List DrainEvent → String
  | [] => ""
  | .tee _ bytes :: evs => bytes ++ combinedOutput evs
  | _ :: evs => combinedOutput evs

/-- A list of steps is a schedule if no step of a stream comes after the `stop`
step of that stream: once `scanner.Scan()` has returned false the goroutine
reads and scans no more.  The two flags say which streams have not stopped. -/
def schedFrom : Bool → Bool → List DrainEvent → Bool
  | _, _, [] => true
  | o, e, .tee .stdout _ :: evs => o && schedFrom o e evs
  | o, e, .tee .stderr _ :: evs => e && schedFrom o e evs
  | o, e, .scan .stdout _ :: evs => o && schedFrom o e evs
  | o, e, .scan .stderr _ :: evs => e && schedFrom o e evs
  | o, e, .stop .stdout _ :: evs => o && schedFrom false e evs
  | o, e, .stop .stderr _ :: evs => e && schedFrom o false evs

/-- The steps of a round form a schedule. -/
def RoundEnv.wellFormed (env : RoundEnv) : Bool :=
  schedFrom true true env.sched

/-- Both drainers of a round finished: each stream reached its end without a
read error. -/
def RoundEnv.bothFinished (env : RoundEnv) : Prop :=
  DrainEvent.stop .stdout none ∈ env.sched ∧ DrainEvent.stop .stderr none ∈ env.sched

/-- A round in which the subprocess writes to both streams, the two drainers
take turns, and the subprocess exits with status 0 before the deadline. -/
def mixedRound : RoundEnv :=
  ⟨none, none, none, none,
    [.tee .stderr "warming up\n", .tee .stdout "=== RUN   TestA\n", .scan .stderr "warming up",
      .scan .stdout "=== RUN   TestA", .tee .stdout "--- PASS: TestA\n", .stop .stderr none,
      .scan .stdout "--- PASS: TestA", .stop .stdout none], true, none, false⟩

/-- The number of drainer goroutines still in their loop. -/
def DrainState.liveCount (st : DrainState) : Nat :=
  (if st.outLive then 1 else 0) + (if st.errLive then 1 else 0)

/-- A value the canonical file may hold during a run over `envs` that began
with the value `start`: that value, or the complete combined output of one of
the rounds in which both drainers finished. -/
def CanonOk (envs : List RoundEnv) (start cur : Option String) : Prop :=
  cur = start ∨
  ∃ env ∈ envs, env.bothFinished ∧ cur = some (combinedOutput env.sched)

/-- The texts a stdout line is to produce, following the words of the
specification: the fixed text if the line has the no-tests warning, then one
copy of the line for each of the four other markers it contains. -/
def stdoutTexts (line : String) : List String :=
  (if strContains line "testing: warning: no tests to run" then ["NO TESTS RUN"] else []) ++
  (["=== RUN", "--- FAIL", "--- PASS", "_test.go"].filter (strContains line)).map (fun _ => line)

/-- The five substrings the loop body of a drainer tests for, in source order. -/
def markers : List String :=
  ["testing: warning: no tests to run", "=== RUN", "--- FAIL", "--- PASS", "_test.go"]

/-! ## Facts about splitting -/

theorem splitChars_ne_nil (l : List Char) : splitChars l ≠ [] := by
  cases l with
  | nil => simp [splitChars]
  | cons c cs =>
    unfold splitChars
    split
    · simp
    · split <;> simp

theorem splitChars_length (l : List Char) : (splitChars l).length = 1 + l.count ' ' := by
  induction l with
  | nil => simp [splitChars]
  | cons c cs ih =>
    unfold splitChars
    by_cases h : c = ' '
    · subst h
      simp [ih]; omega
    · have h2 : (c == ' ') = false := by simpa using h
      simp only [h, if_false]
      rw [List.count_cons, h2] 
      cases hs : splitChars cs with
      | nil => exact absurd hs (splitChars_ne_nil cs)
      | cons p ps =>
        rw [hs] at ih
        simpa using ih

theorem splitChars_no_space (l : List Char) (h : ' ' ∉ l) : splitChars l = [l] := by
  induction l with
  | nil => simp [splitChars]
  | cons c cs ih =>
    have hc : c ≠ ' ' := fun e => h (by simp [e])
    have hcs : ' ' ∉ cs := fun e => h (by simp [e])
    unfold splitChars
    simp [hc, ih hcs]

theorem splitChars_append_space (p l : List Char) (h : ' ' ∉ p) :
    splitChars (p ++ ' ' :: l) = p :: splitChars l := by
  induction p with
  | nil => simp [splitChars]
  | cons c cs ih =>
    have hc : c ≠ ' ' := fun e => h (by simp [e])
    have hcs : ' ' ∉ cs := fun e => h (by simp [e])
    simp only [List.cons_append]
    rw [splitChars, if_neg hc, ih hcs]

/-- The shape of `cmdparts` for a pattern body without a space. -/
theorem strSplit_command (g : String) (h : ' ' ∉ g.data) :
    strSplit ("go test -v -run ^" ++ g ++ "$") = ["go", "test", "-v", "-run", "^" ++ g ++ "$"] := by
  have e : ("go test -v -run ^" ++ g ++ "$").data =
      ['g', 'o'] ++ ' ' :: (['t', 'e', 's', 't'] ++ ' ' :: (['-', 'v'] ++ ' ' ::
        (['-', 'r', 'u', 'n'] ++ ' ' :: ('^' :: (g.data ++ ['$']))))) := by
    simp [String.data_append]
  have hl : ' ' ∉ '^' :: (g.data ++ ['$']) := by simp [h]
  unfold strSplit
  rw [e, splitChars_append_space _ _ (by decide), splitChars_append_space _ _ (by decide),
    splitChars_append_space _ _ (by decide), splitChars_append_space _ _ (by decide),
    splitChars_no_space _ hl]
  simp only [List.map_cons, List.map_nil]
  have e2 : String.mk ('^' :: (g.data ++ ['$'])) = "^" ++ g ++ "$" := by
    apply String.ext
    simp [String.data_append]
  rw [e2]

/-- The number of pieces of `cmdparts` for any pattern body. -/
theorem strSplit_command_length (g : String) :
    (strSplit ("go test -v -run ^" ++ g ++ "$")).length = 5 + g.data.count ' ' := by
  unfold strSplit
  rw [List.length_map, splitChars_length]
  simp [String.data_append, List.count_append, List.count_cons]
  omega

/-! ## The command line -/

theorem buildCmd_eq (f : String) :
    buildCmd f = some ⟨(cmdparts f).headD "", (cmdparts f).tail⟩ ∧ cmdparts f ≠ [] := by
  have h : cmdparts f ≠ [] := by
    unfold cmdparts strSplit
    simpa using splitChars_ne_nil _
  unfold buildCmd
  cases hc : cmdparts f with
  | nil => exact absurd hc h
  | cons a l => simp

theorem buildCmd_of_no_space (f : String) (h : ' ' ∉ f.data) :
    buildCmd f =
      some ⟨"go", ["test", "-v", "-run", "^" ++ (if f = "" then ".*" else f) ++ "$"]⟩ := by
  have hg : ' ' ∉ (if f = "" then ".*" else f).data := by
    split
    · decide
    · exact h
  unfold buildCmd cmdparts
  simp only [strSplit_command _ hg]

/-- Claim C5, as amended: for every filter without a space character the
command built by `roundInner` is `go test -v -run P` where the single argument
`P` is `^` + filter + `$`, and `^.*$` for the empty filter. -/
theorem buildCmd_no_space (f : String) (h : ' ' ∉ f.data) :
    buildCmd f = some ⟨"go", ["test", "-v", "-run", "^" ++ (if f = "" then ".*" else f) ++ "$"]⟩ ∧
    (f = "" → buildCmd f = some ⟨"go", ["test", "-v", "-run", "^.*$"]⟩) := by
  have key := buildCmd_of_no_space f h
  refine ⟨key, fun e => ?_⟩
  rw [key, e]
  rfl

theorem buildCmd_no_space_witness :
    buildCmd "TestFlaky" = some ⟨"go", ["test", "-v", "-run",
      "^" ++ (if "TestFlaky" = "" then ".*" else "TestFlaky") ++ "$"]⟩ ∧
    ("TestFlaky" = "" → buildCmd "TestFlaky" = some ⟨"go", ["test", "-v", "-run", "^.*$"]⟩) :=
  buildCmd_no_space "TestFlaky" (by decide)

/-- Claim C5 fails as stated: for the filter `a b` the pattern `^a b$` is not
one argument; the command gets the two arguments `^a` and `b$`. -/
theorem buildCmd_space_counterexample :
    buildCmd "a b" = some ⟨"go", ["test", "-v", "-run", "^a", "b$"]⟩ ∧
    buildCmd "a b" ≠ some ⟨"go", ["test", "-v", "-run", "^" ++ "a b" ++ "$"]⟩ := by
  decide

/-- Claim C9, as amended: for a non-empty filter without a space the command
has program name `go` and arguments `test -v -run ^filter$`; for every filter
the argument vector, program name first, is the split at single spaces of
`go test -v -run ^body$`, where the body is the filter, or `.*` when the filter
is empty; so for every filter it has 5 plus the number of spaces of the filter
entries. -/
theorem cmdparts_argv (f : String) :
    (f ≠ "" → ' ' ∉ f.data →
      buildCmd f = some ⟨"go", ["test", "-v", "-run", "^" ++ f ++ "$"]⟩) ∧
    (∃ c, buildCmd f = some c ∧
      c.name :: c.args =
        strSplit ("go test -v -run ^" ++ (if f = "" then ".*" else f) ++ "$")) ∧
    (∃ c, buildCmd f = some c ∧ (c.name :: c.args).length = 5 + f.data.count ' ') := by
  have hlen : (cmdparts f).length = 5 + f.data.count ' ' := by
    unfold cmdparts
    rw [strSplit_command_length]
    split
    · next e => subst e; decide
    · rfl
  obtain ⟨hb, hne⟩ := buildCmd_eq f
  have hcons : (cmdparts f).headD "" :: (cmdparts f).tail = cmdparts f := by
    cases hc : cmdparts f with
    | nil => exact absurd hc hne
    | cons a l => simp
  refine ⟨fun hf hs => ?_, ⟨_, hb, ?_⟩, ⟨_, hb, ?_⟩⟩
  · have := buildCmd_of_no_space f hs
    rwa [if_neg hf] at this
  · show (cmdparts f).headD "" :: (cmdparts f).tail = _
    rw [hcons]
    rfl
  · show ((cmdparts f).headD "" :: (cmdparts f).tail).length = _
    rw [hcons, hlen]

theorem cmdparts_argv_witness :
    buildCmd "TestA" = some ⟨"go", ["test", "-v", "-run", "^" ++ "TestA" ++ "$"]⟩ ∧
    (∃ c, buildCmd "Test A" = some c ∧
      c.name :: c.args =
        strSplit ("go test -v -run ^" ++ (if "Test A" = "" then ".*" else "Test A") ++ "$")) ∧
    (∃ c, buildCmd "Test A" = some c ∧ (c.name :: c.args).length = 5 + "Test A".data.count ' ') :=
  ⟨(cmdparts_argv "TestA").1 (by decide) (by decide),
    (cmdparts_argv "Test A").2.1, (cmdparts_argv "Test A").2.2⟩

/-- Claim C9 fails as stated: for the empty filter the argument vector is
`go test -v -run ^.*$`, which is not the split of `go test -v -run ^$`. -/
theorem cmdparts_empty_counterexample :
    buildCmd "" = some ⟨"go", ["test", "-v", "-run", "^.*$"]⟩ ∧
    strSplit ("go test -v -run ^" ++ "" ++ "$") = ["go", "test", "-v", "-run", "^$"] ∧
    ¬ (∃ c, buildCmd "" = some c ∧
      c.name :: c.args = strSplit ("go test -v -run ^" ++ "" ++ "$")) := by
  refine ⟨by decide, by decide, ?_⟩
  rintro ⟨c, hc, h⟩
  have hb : buildCmd "" = some ⟨"go", ["test", "-v", "-run", "^.*$"]⟩ := by decide
  rw [hb] at hc
  cases hc
  revert h
  decide

/-! ## What a drainer prints for a line -/

theorem scannerLog_false (lib : Fmt) (name msg : String) :
    ∃ t, scannerLog lib name false msg = [Effect.print (t ++ "\n")] := by
  unfold scannerLog
  by_cases h : name = "stdout"
  · exact ⟨msg, by simp [h, globalVerbose]⟩
  · exact ⟨"[H] " ++ lib.sprintf0 ("(" ++ name ++ ") " ++ msg), by simp [h, globalVerbose, log]⟩

theorem scannerLog_stdout (lib : Fmt) (msg : String) :
    scannerLog lib "stdout" false msg = [Effect.print (msg ++ "\n")] := by
  simp [scannerLog, globalVerbose]

/-- Claim C6: for a line read by either drainer, something is printed on the
terminal exactly when the line contains one of the five markers, everything the
loop body does for the line is the printing of a text ending in a newline, and
the stdout line `--- FAIL: TestX` is printed. -/
theorem scanLine_prints_iff_marker (lib : Fmt) (name line : String) :
    (printed (scanLine lib name line) ≠ [] ↔ ∃ m ∈ markers, strContains line m = true) ∧
    (scanLine lib name line = [] ↔ ∀ m ∈ markers, strContains line m = false) ∧
    (∀ e ∈ scanLine lib name line, ∃ t, e = Effect.print (t ++ "\n")) ∧
    scanLine lib "stdout" "--- FAIL: TestX" = [Effect.print "--- FAIL: TestX\n"] := by
  obtain ⟨t0, h0⟩ := scannerLog_false lib name "NO TESTS RUN"
  obtain ⟨t1, h1⟩ := scannerLog_false lib name line
  refine ⟨?_, ?_, ?_, ?_⟩
  · unfold scanLine markers
    rw [h0, h1]
    cases h2 : strContains line "testing: warning: no tests to run" <;>
      cases h3 : strContains line "=== RUN" <;> cases h4 : strContains line "--- FAIL" <;>
      cases h5 : strContains line "--- PASS" <;> cases h6 : strContains line "_test.go" <;>
      simp [printed, h2, h3, h4, h5, h6]
  · unfold scanLine markers
    rw [h0, h1]
    cases h2 : strContains line "testing: warning: no tests to run" <;>
      cases h3 : strContains line "=== RUN" <;> cases h4 : strContains line "--- FAIL" <;>
      cases h5 : strContains line "--- PASS" <;> cases h6 : strContains line "_test.go" <;>
      simp [h2, h3, h4, h5, h6]
  · intro e he
    unfold scanLine at he
    rw [h0, h1] at he
    simp only [List.mem_append] at he
    rcases he with (((he | he) | he) | he) | he <;>
      (split at he <;> simp at he; subst he) <;>
      first
        | exact ⟨t0, rfl⟩
        | exact ⟨t1, rfl⟩
  · unfold scanLine
    rw [scannerLog_stdout, scannerLog_stdout]
    decide

/-- Claim C10: for a line read by the stdout drainer the printed texts are, in
order, `NO TESTS RUN` if the line has the no-tests warning and then one copy of
the line per other marker it contains, each followed by a newline; their number
is the number of markers the line contains; a line with two markers is printed
twice; the no-tests warning alone is not echoed. -/
theorem scanLine_stdout_texts (lib : Fmt) (line : String) :
    scanLine lib "stdout" line = (stdoutTexts line).map (fun t => Effect.print (t ++ "\n")) ∧
    (printed (scanLine lib "stdout" line)).length = (markers.filter (strContains line)).length ∧
    printed (scanLine lib "stdout" "--- FAIL: TestX (x_test.go:7)") =
      ["--- FAIL: TestX (x_test.go:7)\n", "--- FAIL: TestX (x_test.go:7)\n"] ∧
    printed (scanLine lib "stdout" "testing: warning: no tests to run") = ["NO TESTS RUN\n"] := by
  have key : ∀ l, scanLine lib "stdout" l =
      (stdoutTexts l).map (fun t => Effect.print (t ++ "\n")) := by
    intro l
    unfold scanLine stdoutTexts
    rw [scannerLog_stdout, scannerLog_stdout]
    cases strContains l "testing: warning: no tests to run" <;>
      cases h1 : strContains l "=== RUN" <;> cases h2 : strContains l "--- FAIL" <;>
      cases h3 : strContains l "--- PASS" <;> cases h4 : strContains l "_test.go" <;>
      simp [List.filter, h1, h2, h3, h4]
  refine ⟨key line, ?_, ?_, ?_⟩
  · unfold scanLine markers
    rw [scannerLog_stdout, scannerLog_stdout]
    cases h0 : strContains line "testing: warning: no tests to run" <;>
      cases h1 : strContains line "=== RUN" <;> cases h2 : strContains line "--- FAIL" <;>
      cases h3 : strContains line "--- PASS" <;> cases h4 : strContains line "_test.go" <;>
      simp [List.filter, h0, h1, h2, h3, h4, printed]
  · rw [key]
    decide
  · rw [key]
    decide

/-! ## The end of a round -/

theorem roundInner_drained (lib : Fmt) (done : Option CtxErr) (env : RoundEnv) (filter : String)
    (hc : env.createErr = none) (ho : env.stdoutPipeErr = none) (he : env.stderrPipeErr = none)
    (hs : env.startErr = none) (hw : (drainEnd lib env).wg = 0) :
    (roundInner lib done env filter).2 = (reconcile done env.exit).2 := by
  obtain ⟨hb, -⟩ := buildCmd_eq filter
  unfold drainEnd at hw
  unfold roundInner
  simp only [hc, ho, he, hs, hb, hw, if_true]

/-- Claim C2: when the round got as far as waiting for the subprocess (set-up
succeeded and the wait group was released), `roundInner` returns the error of
the context whenever the context is done, whatever the exit outcome; otherwise
a `test failed` error when `cmd.Wait()` returned an error; otherwise nil.  The
time-out result is not nil and differs from every `test failed` error, as a
value and as a message. -/
theorem roundInner_result (lib : Fmt) (done : Option CtxErr) (env : RoundEnv) (filter : String)
    (hc : env.createErr = none) (ho : env.stdoutPipeErr = none) (he : env.stderrPipeErr = none)
    (hs : env.startErr = none) (hw : (drainEnd lib env).wg = 0) :
    (∀ e, done = some e →
      (roundInner lib done env filter).2 = .returned (some (.ctx e))) ∧
    (∀ msg, done = none → env.exit = some msg →
      (roundInner lib done env filter).2 = .returned (some (.text ("test failed: " ++ msg)))) ∧
    (done = none → env.exit = none → (roundInner lib done env filter).2 = .returned none) ∧
    (∀ e msg, some (GoError.ctx e) ≠ none ∧ GoError.ctx e ≠ .text ("test failed: " ++ msg) ∧
      (GoError.ctx e).message ≠ (GoError.text ("test failed: " ++ msg)).message) := by
  rw [roundInner_drained lib done env filter hc ho he hs hw]
  refine ⟨fun e h => ?_, fun msg h h2 => ?_, fun h h2 => ?_, fun e msg => ⟨?_, ?_, ?_⟩⟩
  · simp [reconcile, h]
  · simp [reconcile, h, h2]
  · simp [reconcile, h, h2]
  · simp
  · simp
  · intro h
    have h2 := congrArg (fun s => s.data.head?) h
    cases e <;> simp [GoError.message] at h2

theorem roundInner_result_witness :
    (∀ e, some CtxErr.deadlineExceeded = some e →
      (roundInner plainFmt (some .deadlineExceeded)
        ⟨none, none, none, none, [.stop .stderr none, .stop .stdout none], true, none, true⟩
        "TestA").2 = .returned (some (.ctx e))) ∧
    (∀ msg, some CtxErr.deadlineExceeded = none → (none : Option String) = some msg →
      (roundInner plainFmt (some .deadlineExceeded)
        ⟨none, none, none, none, [.stop .stderr none, .stop .stdout none], true, none, true⟩
        "TestA").2 = .returned (some (.text ("test failed: " ++ msg)))) ∧
    (some CtxErr.deadlineExceeded = none → (none : Option String) = none →
      (roundInner plainFmt (some .deadlineExceeded)
        ⟨none, none, none, none, [.stop .stderr none, .stop .stdout none], true, none, true⟩
        "TestA").2 = .returned none) ∧
    (∀ e msg, some (GoError.ctx e) ≠ none ∧ GoError.ctx e ≠ .text ("test failed: " ++ msg) ∧
      (GoError.ctx e).message ≠ (GoError.text ("test failed: " ++ msg)).message) :=
  roundInner_result plainFmt (some .deadlineExceeded)
    ⟨none, none, none, none, [.stop .stderr none, .stop .stdout none], true, none, true⟩
    "TestA" rfl rfl rfl rfl (by decide)

/-! ## The wait group -/

/-- Claim C4 fails on the code: a drainer whose scanner stops on a read error
prints the error and returns before `wg.Done()`.  Here stdout carries one line
and then fails with the scanner's token-limit error while stderr ends cleanly:
the stdout goroutine leaves the counter alone, the counter ends at 1 and not at
0, and `roundInner` is blocked in `wg.Wait()`, having renamed nothing. -/
theorem scanner_error_blocks_round :
    (∀ st : DrainState, st.live .stdout = true →
      (drainStep plainFmt st (.stop .stdout (some "bufio.Scanner: token too long"))).2.wg
        = st.wg) ∧
    (drainEnd plainFmt
      ⟨none, none, none, none,
        [.tee .stdout "ok\n", .scan .stdout "ok",
          .stop .stdout (some "bufio.Scanner: token too long"), .stop .stderr none],
        true, none, false⟩).wg = 1 ∧
    roundInner plainFmt none
      ⟨none, none, none, none,
        [.tee .stdout "ok\n", .scan .stdout "ok",
          .stop .stdout (some "bufio.Scanner: token too long"), .stop .stderr none],
        true, none, false⟩ "" =
      ([.create, .spawn ⟨"go", ["test", "-v", "-run", "^.*$"]⟩, .write "ok\n",
        .print "scanner error: bufio.Scanner: token too long\n"], .blocked) := by
  refine ⟨fun st h => ?_, by decide, by decide⟩
  simp [drainStep, DrainEvent.stream, h]
  cases st
  rfl

/-! ## The exit status -/

/-- Claim C7, as amended: whenever `main2` returns an error, `main` prints the
line `Error: ` followed by the error's message after everything `main2` did,
and then returns, so the process terminates with exit status 0. -/
theorem main_prints_error (lib : Fmt) (args : List String) (envs : List RoundEnv)
    (err : GoError) (h : (main2 lib args envs).2 = .returned (some err)) :
    main lib args envs =
      ((main2 lib args envs).1 ++ [Effect.print ("Error: " ++ err.message ++ "\n")],
        .exited 0) := by
  unfold main
  simp only [h]

theorem main_prints_error_witness :
    main plainFmt ["waterhammer", "TestA", "TestB", "TestC"] [] =
      ((main2 plainFmt ["waterhammer", "TestA", "TestB", "TestC"] []).1 ++
        [Effect.print ("Error: " ++ (GoError.text "too many arguments").message ++ "\n")],
        .exited 0) :=
  main_prints_error plainFmt ["waterhammer", "TestA", "TestB", "TestC"] []
    (.text "too many arguments") (by decide)

/-- Claim C7 fails as stated: with two positional arguments `main2` returns the
usage error, `main` prints it, and the exit status is 0, not non-zero. -/
theorem main_exit_status_counterexample :
    (main2 plainFmt ["waterhammer", "TestA", "TestB"] []).2 =
      .returned (some (.text "too many arguments")) ∧
    main plainFmt ["waterhammer", "TestA", "TestB"] [] =
      ([Effect.print "Error: too many arguments\n"], .exited 0) ∧
    ¬ (∃ n, n ≠ 0 ∧ (main plainFmt ["waterhammer", "TestA", "TestB"] []).2 = .exited n) := by
  refine ⟨by decide, by decide, ?_⟩
  rintro ⟨n, hn, h⟩
  have h0 : (main plainFmt ["waterhammer", "TestA", "TestB"] []).2 = .exited 0 := by decide
  rw [h0] at h
  cases h
  exact hn rfl

/-! ## Kinds of effects -/

theorem log_isPrint (verbose : Bool) (msg : String) :
    (log verbose msg).all Effect.isPrint = true := by
  unfold log
  split <;> simp [Effect.isPrint]

theorem scannerLog_isPrint (lib : Fmt) (name : String) (verbose : Bool) (msg : String) :
    (scannerLog lib name verbose msg).all Effect.isPrint = true := by
  unfold scannerLog
  split
  · split
    · simp [Effect.isPrint]
    · exact log_isPrint _ _
  · simp

theorem scanLine_isPrint (lib : Fmt) (name line : String) :
    (scanLine lib name line).all Effect.isPrint = true := by
  unfold scanLine
  simp only [List.all_append, Bool.and_eq_true]
  refine ⟨⟨⟨⟨?_, ?_⟩, ?_⟩, ?_⟩, ?_⟩ <;>
    (split
     · exact scannerLog_isPrint _ _ _ _
     · simp)

theorem all_of_isPrint (p : Effect → Bool) (hp : ∀ s, p (.print s) = true) (l : List Effect)
    (h : l.all Effect.isPrint = true) : l.all p = true := by
  rw [List.all_eq_true] at h ⊢
  intro e he
  have := h e he
  cases e <;> simp [Effect.isPrint] at this
  exact hp _

theorem drainStep_isDrain (lib : Fmt) (st : DrainState) (ev : DrainEvent) :
    (drainStep lib st ev).1.all Effect.isDrain = true := by
  have hs : ∀ name line, (scanLine lib name line).all Effect.isDrain = true := fun _ _ =>
    all_of_isPrint Effect.isDrain (fun _ => rfl) _ (scanLine_isPrint _ _ _)
  have hl : ∀ name v msg, (scannerLog lib name v msg).all Effect.isDrain = true := fun _ _ _ =>
    all_of_isPrint Effect.isDrain (fun _ => rfl) _ (scannerLog_isPrint _ _ _ _)
  unfold drainStep
  split
  · split
    · simp [Effect.isDrain]
    · exact hs _ _
    · exact hl _ false _
    · simp [scannerLog, globalVerbose]
  · simp

theorem drain_isDrain (lib : Fmt) (st : DrainState) (evs : List DrainEvent) :
    (drain lib st evs).1.all Effect.isDrain = true := by
  induction evs generalizing st with
  | nil => simp [drain]
  | cons ev evs ih =>
    simp only [drain, List.all_append, Bool.and_eq_true]
    exact ⟨drainStep_isDrain _ _ _, ih _⟩

theorem all_of_isDrain (p : Effect → Bool) (hp : ∀ s, p (.print s) = true)
    (hw : ∀ b, p (.write b) = true) (l : List Effect)
    (h : l.all Effect.isDrain = true) : l.all p = true := by
  rw [List.all_eq_true] at h ⊢
  intro e he
  have := h e he
  cases e <;> simp [Effect.isDrain] at this
  · exact hp _
  · exact hw _

theorem reconcile_isPrint (done : Option CtxErr) (exit : Option String) :
    (reconcile done exit).1.all Effect.isPrint = true := by
  cases done <;> cases exit <;> simp [reconcile, log_isPrint]

theorem log_true (msg : String) : log true msg = [] := by
  simp [log, globalVerbose]

/-- The three ways a call of `roundInner` can go: it fails during set-up, having
at most created the swap file; it starts the subprocess and is blocked at the
wait group; or it gets past the wait group, renames and reconciles. -/
theorem roundInner_cases (lib : Fmt) (done : Option CtxErr) (env : RoundEnv) (filter : String) :
    ((roundInner lib done env filter).1 = [] ∨ (roundInner lib done env filter).1 = [.create]) ∨
    (∃ cmd, (drainEnd lib env).wg ≠ 0 ∧
      roundInner lib done env filter =
        (.create :: .spawn cmd ::
          (drain lib (driveScanner (driveScanner DrainState.init .stdout) .stderr) env.sched).1,
          .blocked)) ∨
    (∃ cmd, (drainEnd lib env).wg = 0 ∧
      roundInner lib done env filter =
        (.create :: .spawn cmd ::
          ((drain lib (driveScanner (driveScanner DrainState.init .stdout) .stderr) env.sched).1
            ++ ((if env.renameOk then [Effect.rename] else []) ++ (reconcile done env.exit).1)),
          (reconcile done env.exit).2)) := by
  obtain ⟨hb, -⟩ := buildCmd_eq filter
  unfold roundInner drainEnd
  simp only [hb, log_true, List.nil_append, List.append_nil]
  cases env.createErr with
  | some e => simp
  | none =>
    cases env.stdoutPipeErr with
    | some e => simp
    | none =>
      cases env.stderrPipeErr with
      | some e => simp
      | none =>
        cases env.startErr with
        | some e => simp
        | none =>
          by_cases hw : (drain lib (driveScanner (driveScanner DrainState.init .stdout) .stderr)
              env.sched).2.wg = 0
          · simp [hw]
          · simp [hw]

theorem roundInner_isInner (lib : Fmt) (done : Option CtxErr) (env : RoundEnv) (filter : String) :
    (roundInner lib done env filter).1.all Effect.isInner = true := by
  have hd : ∀ st evs, (drain lib st evs).1.all Effect.isInner = true := fun st evs =>
    all_of_isDrain Effect.isInner (fun _ => rfl) (fun _ => rfl) _ (drain_isDrain lib st evs)
  have hr : (reconcile done env.exit).1.all Effect.isInner = true :=
    all_of_isPrint Effect.isInner (fun _ => rfl) _ (reconcile_isPrint _ _)
  rcases roundInner_cases lib done env filter with (h | h) | ⟨cmd, -, h⟩ | ⟨cmd, -, h⟩
  · rw [h]; rfl
  · rw [h]; rfl
  · rw [h]
    simp only [List.all_cons, Bool.and_eq_true]
    exact ⟨rfl, rfl, hd _ _⟩
  · rw [h]
    simp only [List.all_cons, List.all_append, Bool.and_eq_true]
    refine ⟨rfl, rfl, hd _ _, ?_, hr⟩
    split <;> rfl

theorem roundCalls_append (a b : List Effect) :
    roundCalls (a ++ b) = roundCalls a ++ roundCalls b := by
  induction a with
  | nil => simp [roundCalls]
  | cons e a ih => cases e <;> simp [roundCalls, ih]

theorem roundCalls_of_isInner (l : List Effect) (h : l.all Effect.isInner = true) :
    roundCalls l = [] := by
  induction l with
  | nil => simp [roundCalls]
  | cons e l ih =>
    simp only [List.all_cons, Bool.and_eq_true] at h
    cases e <;> simp_all [roundCalls, Effect.isInner]

theorem roundCalls_log (verbose : Bool) (msg : String) : roundCalls (log verbose msg) = [] :=
  roundCalls_of_isInner _ (all_of_isPrint Effect.isInner (fun _ => rfl) _ (log_isPrint verbose msg))

theorem roundCalls_round (lib : Fmt) (env : RoundEnv) (filter : String) :
    roundCalls (round lib env filter).1 = [] :=
  roundCalls_of_isInner _ (roundInner_isInner _ _ _ _)

/-! ## The driver -/

theorem mainLoop_cons_ok (lib : Fmt) (filter : String) (i : Int) (env : RoundEnv)
    (envs : List RoundEnv) (h : (round lib env filter).2 = .returned none) :
    mainLoop lib filter i (env :: envs) =
      (okRound lib filter i env ++ (mainLoop lib filter (wrapInt (i + 1)) envs).1,
        (mainLoop lib filter (wrapInt (i + 1)) envs).2) := by
  simp only [mainLoop, h, okRound]

theorem mainLoop_cons_err (lib : Fmt) (filter : String) (i : Int) (env : RoundEnv)
    (envs : List RoundEnv) (err : GoError) (h : (round lib env filter).2 = .returned (some err)) :
    mainLoop lib filter i (env :: envs) = (errRound lib filter i env err, .returned (some err)) := by
  simp only [mainLoop, h, errRound]

theorem mainLoop_cons_stuck (lib : Fmt) (filter : String) (i : Int) (env : RoundEnv)
    (envs : List RoundEnv) (h : ∀ e, (round lib env filter).2 ≠ .returned e) :
    mainLoop lib filter i (env :: envs) =
      (log false ("round " ++ fmtInt i) ++ Effect.callRound filter :: (round lib env filter).1,
        (round lib env filter).2) := by
  rw [mainLoop]
  cases hr : (round lib env filter).2 with
  | returned e => exact absurd hr (h e)
  | blocked => rfl
  | running => rfl
  | panicked => rfl

theorem roundCalls_okRound (lib : Fmt) (filter : String) (i : Int) (env : RoundEnv) :
    roundCalls (okRound lib filter i env) = [filter] := by
  simp [okRound, roundCalls_append, roundCalls_log, roundCalls_round, roundCalls]

theorem roundCalls_errRound (lib : Fmt) (filter : String) (i : Int) (env : RoundEnv)
    (err : GoError) : roundCalls (errRound lib filter i env err) = [filter] := by
  simp [errRound, roundCalls_append, roundCalls_log, roundCalls_round, roundCalls]

theorem roundCalls_mainLoop (lib : Fmt) (filter : String) (i : Int) (envs : List RoundEnv) :
    roundCalls (mainLoop lib filter i envs).1 =
      List.replicate (roundCalls (mainLoop lib filter i envs).1).length filter ∧
    (envs ≠ [] → roundCalls (mainLoop lib filter i envs).1 ≠ []) := by
  induction envs generalizing i with
  | nil => simp [mainLoop, roundCalls]
  | cons env envs ih =>
    have h := (ih (wrapInt (i + 1))).1
    by_cases hs : ∀ e, (round lib env filter).2 ≠ .returned e
    · rw [mainLoop_cons_stuck lib filter i env envs hs]
      simp [roundCalls_append, roundCalls_log, roundCalls_round, roundCalls]
    · push_neg at hs
      obtain ⟨e, he⟩ := hs
      cases e with
      | none =>
        rw [mainLoop_cons_ok lib filter i env envs he]
        simp only [roundCalls_append, roundCalls_okRound, List.singleton_append,
          List.length_cons, List.replicate_succ, ne_eq, not_false_eq_true, implies_true,
          and_true, reduceCtorEq]
        rw [← h]
      | some err =>
        rw [mainLoop_cons_err lib filter i env envs err he]
        simp [roundCalls_errRound]

/-- Claim C8: `main2` returns the usage error `too many arguments` without
calling `round` exactly when `os.Args` has three or more entries, and then it
does nothing else.  With two entries every call of `round` gets `os.Args[1]` as
the filter, with fewer every call gets the empty string; and round 0 is run
whenever there are fewer than three entries. -/
theorem main2_usage (lib : Fmt) (args : List String) (envs : List RoundEnv) :
    (((main2 lib args envs).2 = .returned (some (.text "too many arguments")) ∧
        roundCalls (main2 lib args envs).1 = []) ↔ 3 ≤ args.length) ∧
    (3 ≤ args.length →
      main2 lib args envs = ([], .returned (some (.text "too many arguments")))) ∧
    (∀ prog a, args = [prog, a] → ∀ f ∈ roundCalls (main2 lib args envs).1, f = a) ∧
    (args.length ≤ 1 → ∀ f ∈ roundCalls (main2 lib args envs).1, f = "") ∧
    (args.length ≤ 2 → envs ≠ [] → roundCalls (main2 lib args envs).1 ≠ []) := by
  have hrun : ¬ 3 ≤ args.length → roundCalls (main2 lib args envs).1 =
      roundCalls (mainLoop lib (argFilter args) 0 envs).1 ∧
      (main2 lib args envs).2 = (mainLoop lib (argFilter args) 0 envs).2 := by
    intro h
    unfold main2
    simp only [ge_iff_le, h, if_false, roundCalls_append, roundCalls_log, List.nil_append,
      and_true]
    split <;> simp [roundCalls_log]
  have hmem : ¬ 3 ≤ args.length → ∀ f ∈ roundCalls (main2 lib args envs).1,
      f = argFilter args := by
    intro h f hf
    rw [(hrun h).1, (roundCalls_mainLoop lib _ 0 envs).1] at hf
    exact (List.mem_replicate.mp hf).2
  have hbig : 3 ≤ args.length →
      main2 lib args envs = ([], .returned (some (.text "too many arguments"))) := by
    intro h
    unfold main2
    simp [h, log, globalVerbose]
  refine ⟨⟨fun h => ?_, fun h => ?_⟩, hbig, fun prog a e f hf => ?_, fun h f hf => ?_,
    fun h he => ?_⟩
  · by_contra hn
    have h1 := (hrun hn).1
    have h2 := (hrun hn).2
    rw [h.1] at h2
    rw [h.2] at h1
    cases envs with
    | nil => simp [mainLoop] at h2
    | cons env envs =>
      exact (roundCalls_mainLoop lib (argFilter args) 0 (env :: envs)).2 (by simp) h1.symm
  · rw [hbig h]
    simp [roundCalls]
  · have := hmem (by rw [e]; simp) f hf
    rw [this, e]
    rfl
  · have := hmem (by omega) f hf
    rw [this]
    unfold argFilter
    rw [if_neg (by omega)]
  · rw [(hrun (by omega)).1]
    exact (roundCalls_mainLoop lib _ 0 envs).2 he

theorem main2_usage_witness :
    main2 plainFmt ["waterhammer", "TestA", "TestB"] [] =
      ([], .returned (some (.text "too many arguments"))) ∧
    (∀ f ∈ roundCalls (main2 plainFmt ["waterhammer", "TestA"]
        [⟨none, none, none, none, [.stop .stdout none, .stop .stderr none], true, none,
          false⟩]).1, f = "TestA") ∧
    (∀ f ∈ roundCalls (main2 plainFmt ["waterhammer"]
        [⟨none, none, none, none, [.stop .stdout none, .stop .stderr none], true, none,
          false⟩]).1, f = "") ∧
    roundCalls (main2 plainFmt ["waterhammer", "TestA"]
        [⟨none, none, none, none, [.stop .stdout none, .stop .stderr none], true, none,
          false⟩]).1 ≠ [] :=
  ⟨(main2_usage plainFmt ["waterhammer", "TestA", "TestB"] []).2.1 (by decide),
    (main2_usage plainFmt ["waterhammer", "TestA"] _).2.2.1 "waterhammer" "TestA" rfl,
    (main2_usage plainFmt ["waterhammer"] _).2.2.2.1 (by decide),
    (main2_usage plainFmt ["waterhammer", "TestA"] _).2.2.2.2 (by decide) (by simp)⟩

/-! ## The driver stops at the first error -/

theorem wrapInt_succ (n : Int) : wrapInt (wrapInt n + 1) = wrapInt (n + 1) := by
  unfold wrapInt
  omega

theorem wrapInt_nat (j : Nat) (h : j < 2 ^ 63) : wrapInt j = j := by
  unfold wrapInt
  omega

theorem wrapInt_zero : wrapInt 0 = 0 := by
  unfold wrapInt
  omega

theorem printed_append (a b : List Effect) : printed (a ++ b) = printed a ++ printed b := by
  induction a with
  | nil => simp [printed]
  | cons e a ih => cases e <;> simp [printed, ih]

theorem mem_printed (s : String) (l : List Effect) (h : Effect.print s ∈ l) : s ∈ printed l := by
  induction l with
  | nil => simp at h
  | cons e l ih =>
    rcases List.mem_cons.mp h with h1 | h1
    · subst h1
      simp [printed]
    · cases e <;> simp [printed, ih h1]

theorem mainLoop_first_error (lib : Fmt) (filter : String) (oks : List RoundEnv) (bad : RoundEnv)
    (later : List RoundEnv) (err : GoError) (n : Nat)
    (hok : ∀ env ∈ oks, (round lib env filter).2 = .returned none)
    (hbad : (round lib bad filter).2 = .returned (some err)) :
    mainLoop lib filter (wrapInt n) (oks ++ bad :: later) =
      ((oks.enumFrom n).flatMap (fun p => okRound lib filter (wrapInt p.1) p.2) ++
        errRound lib filter (wrapInt (n + oks.length : Nat)) bad err, .returned (some err)) := by
  induction oks generalizing n with
  | nil =>
    rw [List.nil_append, mainLoop_cons_err lib filter _ bad later err hbad, List.enumFrom_nil,
      List.flatMap_nil, List.nil_append, List.length_nil, Nat.add_zero]
  | cons env oks ih =>
    have h1 : wrapInt (wrapInt n + 1) = wrapInt ((n + 1 : Nat) : Int) := by
      rw [wrapInt_succ, Nat.cast_add, Nat.cast_one]
    have h2 : n + (env :: oks).length = n + 1 + oks.length := by
      rw [List.length_cons]; omega
    rw [List.cons_append, mainLoop_cons_ok lib filter _ env _ (hok env (List.mem_cons_self _ _)),
      h1, ih (n + 1) (fun e he => hok e (List.mem_cons_of_mem _ he)), h2,
      List.enumFrom_cons, List.flatMap_cons, List.append_assoc]

theorem main2_run (lib : Fmt) (args : List String) (envs : List RoundEnv)
    (h : args.length ≤ 2) :
    main2 lib args envs =
      (filterLine lib (argFilter args) ++ (mainLoop lib (argFilter args) (wrapInt (0 : Nat)) envs).1,
        (mainLoop lib (argFilter args) (wrapInt (0 : Nat)) envs).2) := by
  have h3 : ¬ args.length ≥ 3 := by omega
  rw [Nat.cast_zero, wrapInt_zero]
  unfold main2
  rw [if_neg h3, log_true]
  simp only [List.nil_append, filterLine]

theorem roundCalls_okRounds (lib : Fmt) (filter : String) (l : List RoundEnv) (n : Nat) :
    roundCalls ((l.enumFrom n).flatMap (fun p => okRound lib filter (wrapInt p.1) p.2)) =
      List.replicate l.length filter := by
  induction l generalizing n with
  | nil => rfl
  | cons e l ih =>
    rw [List.enumFrom_cons, List.flatMap_cons, roundCalls_append, roundCalls_okRound, ih (n + 1),
      List.length_cons, List.replicate_succ, List.singleton_append]

theorem roundCalls_filterLine (lib : Fmt) (filter : String) :
    roundCalls (filterLine lib filter) = [] := by
  unfold filterLine
  split <;> exact roundCalls_log _ _

theorem printed_log_false (msg : String) : printed (log false msg) = ["[H] " ++ msg ++ "\n"] := by
  simp [log, globalVerbose, printed]

theorem okLine_eq (x : String) :
    "[H] " ++ ("round " ++ x ++ " -> OK") ++ "\n" = "[H] round " ++ x ++ " -> OK\n" := by
  apply String.ext
  simp [String.data_append]

theorem errLine_eq (x m : String) :
    "[H] " ++ ("round " ++ x ++ " -> Error: " ++ m) ++ "\n" =
      "[H] round " ++ x ++ " -> Error: " ++ m ++ "\n" := by
  apply String.ext
  simp [String.data_append]

/-- Claim C1: with at most one positional argument, if the rounds before round
`k` all return nil and round `k` returns the error `err`, then `main2` returns
`err` whatever would come later.  What it does is, in order: the filter line,
then for each round `j` before `k` the line `round j`, the round itself and the
line `round j -> OK`, then the line `round k`, round `k` and the line
`round k -> Error: ` with the message of `err`.  So `round` is called `k + 1`
times, every `round j -> OK` line is printed, and the error line is the last
thing printed.  Lines carry the prefix `[H] ` of `log`; the index is the Go
`int`, which equals the round number below `2 ^ 63`. -/
theorem main2_stops_at_first_error (lib : Fmt) (args : List String) (oks : List RoundEnv)
    (bad : RoundEnv) (later : List RoundEnv) (err : GoError) (hargs : args.length ≤ 2)
    (hok : ∀ env ∈ oks, (round lib env (argFilter args)).2 = .returned none)
    (hbad : (round lib bad (argFilter args)).2 = .returned (some err)) :
    main2 lib args (oks ++ bad :: later) =
      (filterLine lib (argFilter args) ++
        (oks.enum.flatMap (fun p => okRound lib (argFilter args) (wrapInt p.1) p.2) ++
        errRound lib (argFilter args) (wrapInt oks.length) bad err), .returned (some err)) ∧
    roundCalls (main2 lib args (oks ++ bad :: later)).1 =
      List.replicate (oks.length + 1) (argFilter args) ∧
    (∀ j : Nat, j < oks.length →
      "[H] round " ++ fmtInt (wrapInt j) ++ " -> OK\n" ∈
        printed (main2 lib args (oks ++ bad :: later)).1) ∧
    (printed (main2 lib args (oks ++ bad :: later)).1).getLast? =
      some ("[H] round " ++ fmtInt (wrapInt oks.length) ++ " -> Error: " ++ err.message ++ "\n") ∧
    (∀ j : Nat, j < 2 ^ 63 → wrapInt j = j) := by
  have key : main2 lib args (oks ++ bad :: later) =
      (filterLine lib (argFilter args) ++
        (oks.enum.flatMap (fun p => okRound lib (argFilter args) (wrapInt p.1) p.2) ++
        errRound lib (argFilter args) (wrapInt oks.length) bad err), .returned (some err)) := by
    rw [main2_run lib args _ hargs,
      mainLoop_first_error lib (argFilter args) oks bad later err 0 hok hbad, Nat.zero_add]
    rfl
  refine ⟨key, ?_, fun j hj => ?_, ?_, wrapInt_nat⟩
  · rw [key]
    show roundCalls (filterLine lib (argFilter args) ++
        ((List.enumFrom 0 oks).flatMap (fun p => okRound lib (argFilter args) (wrapInt p.1) p.2) ++
        errRound lib (argFilter args) (wrapInt oks.length) bad err)) = _
    rw [roundCalls_append, roundCalls_append, roundCalls_filterLine, roundCalls_okRounds,
      roundCalls_errRound, List.nil_append, List.replicate_succ']
  · rw [key]
    apply mem_printed
    apply List.mem_append_right
    apply List.mem_append_left
    rw [List.mem_flatMap]
    refine ⟨(j, oks[j]), ?_, ?_⟩
    · rw [List.mk_mem_enum_iff_getElem?]
      exact List.getElem?_eq_getElem hj
    · show Effect.print _ ∈ okRound lib (argFilter args) (wrapInt j) oks[j]
      unfold okRound
      apply List.mem_append_right
      rw [← okLine_eq]
      simp only [log, globalVerbose, Bool.not_false, Bool.or_false, if_true, List.mem_singleton]
  · rw [key]
    show (printed (filterLine lib (argFilter args) ++
        (oks.enum.flatMap (fun p => okRound lib (argFilter args) (wrapInt p.1) p.2) ++
        errRound lib (argFilter args) (wrapInt oks.length) bad err))).getLast? = _
    unfold errRound
    rw [← List.append_assoc, ← List.append_assoc, printed_append, printed_log_false,
      errLine_eq]
    exact List.getLast?_concat _

theorem main2_stops_at_first_error_witness :
    ((main2 plainFmt ["waterhammer", "TestA"]
        ([passingRound] ++ failingRound :: [passingRound])).2 =
      .returned (some (.text "test failed: exit status 1")) ∧
    roundCalls
        (main2 plainFmt ["waterhammer", "TestA"]
          ([passingRound] ++ failingRound :: [passingRound])).1 =
      List.replicate ([passingRound].length + 1) (argFilter ["waterhammer", "TestA"]) ∧
    (printed (main2 plainFmt ["waterhammer", "TestA"]
        ([passingRound] ++ failingRound :: [passingRound])).1).getLast? =
      some ("[H] round " ++ fmtInt (wrapInt [passingRound].length) ++ " -> Error: " ++
        (GoError.text "test failed: exit status 1").message ++ "\n")) ∧
    main2 plainFmt ["waterhammer", "TestA"] ([passingRound] ++ failingRound :: [passingRound]) =
      ([.print "[H] filter: \"TestA\"\n",
        .print "[H] round 0\n", .callRound "TestA", .create,
        .spawn ⟨"go", ["test", "-v", "-run", "^TestA$"]⟩, .write "--- PASS: TestA\n",
        .print "--- PASS: TestA\n", .rename, .print "[H] round 0 -> OK\n",
        .print "[H] round 1\n", .callRound "TestA", .create,
        .spawn ⟨"go", ["test", "-v", "-run", "^TestA$"]⟩, .write "--- FAIL: TestA\n",
        .print "--- FAIL: TestA\n", .rename,
        .print "[H] round 1 -> Error: test failed: exit status 1\n"],
        .returned (some (.text "test failed: exit status 1"))) :=
  have h := main2_stops_at_first_error plainFmt ["waterhammer", "TestA"] [passingRound]
    failingRound [passingRound] (.text "test failed: exit status 1") (by decide) (by decide)
    (by decide)
  ⟨⟨congrArg Prod.snd h.1, h.2.1, h.2.2.2.1⟩, by decide⟩

/-! ## The canonical log file -/

theorem replay_append (fs : FS) (a b : List Effect) :
    fs.replay (a ++ b) = (fs.replay a).replay b := by
  simp [FS.replay, List.foldl_append]

theorem replay_cons (fs : FS) (e : Effect) (l : List Effect) :
    fs.replay (e :: l) = (fs.step e).replay l := rfl

theorem replay_silent (fs : FS) (l : List Effect) (h : l.all Effect.isSilent = true) :
    fs.replay l = fs := by
  induction l generalizing fs with
  | nil => rfl
  | cons e l ih =>
    simp only [List.all_cons, Bool.and_eq_true] at h
    rw [replay_cons, ih _ h.2]
    cases e <;> first | rfl | simp [Effect.isSilent] at h

theorem replay_drain (c : String) (k : Option String) (l : List Effect)
    (h : l.all Effect.isDrain = true) :
    FS.replay ⟨some c, k, .swap⟩ l = ⟨some (c ++ written l), k, .swap⟩ := by
  induction l generalizing c with
  | nil => simp [FS.replay, written]
  | cons e l ih =>
    simp only [List.all_cons, Bool.and_eq_true] at h
    rw [replay_cons]
    cases e with
    | print t => exact ih c h.2
    | write b =>
      have : FS.step ⟨some c, k, .swap⟩ (.write b) = ⟨some (c ++ b), k, .swap⟩ := rfl
      rw [this, ih (c ++ b) h.2]
      simp [written, String.append_assoc]
    | callRound f => simp [Effect.isDrain] at h
    | create => simp [Effect.isDrain] at h
    | spawn cmd => simp [Effect.isDrain] at h
    | rename => simp [Effect.isDrain] at h

theorem initial_append_cases {pre a b : List Effect} (h : pre <+: a ++ b) :
    pre <+: a ∨ ∃ q, pre = a ++ q ∧ q <+: b := by
  rcases List.prefix_or_prefix_of_prefix h (List.prefix_append a b) with h1 | ⟨q, hq⟩
  · exact Or.inl h1
  · refine Or.inr ⟨q, hq.symm, ?_⟩
    rw [← hq] at h
    exact (List.prefix_append_right_inj a).mp h

theorem all_of_initial {p : Effect → Bool} {pre l : List Effect} (h : pre <+: l)
    (hl : l.all p = true) : pre.all p = true := by
  rw [List.all_eq_true] at hl ⊢
  exact fun e he => hl e (h.subset he)

theorem written_append (a b : List Effect) : written (a ++ b) = written a ++ written b := by
  induction a with
  | nil => simp [written]
  | cons e a ih => cases e <;> simp [written, ih, String.append_assoc]

theorem written_of_isPrint (l : List Effect) (h : l.all Effect.isPrint = true) :
    written l = "" := by
  induction l with
  | nil => rfl
  | cons e l ih =>
    simp only [List.all_cons, Bool.and_eq_true] at h
    cases e <;> first | exact ih h.2 | simp [Effect.isPrint] at h

/-- On a schedule the drainers copy every tee read of either stream: what they
write is the complete combined output. -/
theorem drain_written (lib : Fmt) (st : DrainState) (evs : List DrainEvent)
    (h : schedFrom st.outLive st.errLive evs = true) :
    written (drain lib st evs).1 = combinedOutput evs := by
  induction evs generalizing st with
  | nil => rfl
  | cons ev evs ih =>
    obtain ⟨wg, o, e⟩ := st
    have hs : ∀ name line, written (scanLine lib name line) = "" := fun _ _ =>
      written_of_isPrint _ (scanLine_isPrint _ _ _)
    have hl : ∀ name v msg, written (scannerLog lib name v msg) = "" := fun _ _ _ =>
      written_of_isPrint _ (scannerLog_isPrint _ _ _ _)
    rw [drain, written_append]
    cases ev with
    | tee s b =>
      cases s <;>
        (simp only [schedFrom, Bool.and_eq_true] at h
         obtain ⟨h1, h2⟩ := h
         subst h1
         simp only [drainStep, DrainEvent.stream, DrainState.live, if_true] 
         rw [ih _ h2]
         simp [written, combinedOutput])
    | scan s l =>
      cases s <;>
        (simp only [schedFrom, Bool.and_eq_true] at h
         obtain ⟨h1, h2⟩ := h
         subst h1
         simp only [drainStep, DrainEvent.stream, DrainState.live, if_true]
         rw [ih _ h2, hs]
         simp [combinedOutput])
    | stop s err =>
      cases s <;> cases err <;>
        (simp only [schedFrom, Bool.and_eq_true] at h
         obtain ⟨h1, h2⟩ := h
         subst h1
         simp only [drainStep, DrainEvent.stream, DrainState.live, if_true, DrainState.finish]
         rw [ih _ h2, hl]
         simp [combinedOutput])

theorem drainStep_slack (lib : Fmt) (k : Nat) (st : DrainState) (ev : DrainEvent)
    (h : st.liveCount + k ≤ st.wg) :
    (drainStep lib st ev).2.liveCount + k ≤ (drainStep lib st ev).2.wg := by
  obtain ⟨wg, o, e⟩ := st
  cases ev with
  | tee s b => unfold drainStep; split <;> exact h
  | scan s l => unfold drainStep; split <;> exact h
  | stop s err =>
    cases s <;> cases err <;> cases o <;> cases e <;>
      simp_all [drainStep, DrainEvent.stream, DrainState.live, DrainState.finish,
        DrainState.liveCount] <;> omega

theorem drain_slack (lib : Fmt) (k : Nat) (st : DrainState) (evs : List DrainEvent)
    (h : st.liveCount + k ≤ st.wg) :
    (drain lib st evs).2.liveCount + k ≤ (drain lib st evs).2.wg := by
  induction evs generalizing st with
  | nil => exact h
  | cons ev evs ih => exact ih _ (drainStep_slack lib k st ev h)

theorem drain_liveCount (lib : Fmt) (st : DrainState) (evs : List DrainEvent)
    (h : st.liveCount ≤ st.wg) :
    (drain lib st evs).2.liveCount ≤ (drain lib st evs).2.wg :=
  drain_slack lib 0 st evs h

/-- A goroutine that leaves its loop after a read error keeps the wait group
from ever reaching zero. -/
theorem drain_error_blocks (lib : Fmt) (st : DrainState) (s : Stream) (err : String)
    (evs : List DrainEvent) (hl : st.live s = true) (h : st.liveCount ≤ st.wg) :
    (drain lib st (.stop s (some err) :: evs)).2.wg ≠ 0 := by
  have h1 : (drainStep lib st (.stop s (some err))).2.liveCount + 1 ≤
      (drainStep lib st (.stop s (some err))).2.wg := by
    obtain ⟨wg, o, e⟩ := st
    cases s <;> cases o <;> cases e <;>
      simp_all [drainStep, DrainEvent.stream, DrainState.live, DrainState.finish,
        DrainState.liveCount]
  have h2 := drain_slack lib 1 _ evs h1
  show (drain lib (drainStep lib st (.stop s (some err))).2 evs).2.wg ≠ 0
  omega

/-- If the wait group is released, every goroutine that was in its loop has
reached the end of its stream without a read error. -/
theorem drain_released (lib : Fmt) (st : DrainState) (evs : List DrainEvent)
    (h : st.liveCount ≤ st.wg) (hw : (drain lib st evs).2.wg = 0) (s : Stream)
    (hl : st.live s = true) : DrainEvent.stop s none ∈ evs := by
  induction evs generalizing st with
  | nil =>
    exfalso
    have hw0 : st.wg = 0 := hw
    obtain ⟨wg, o, e⟩ := st
    cases s <;> simp_all [DrainState.live, DrainState.liveCount]
  | cons ev evs ih =>
    have hstep := drainStep_slack lib 0 st ev h
    have hw2 : (drain lib (drainStep lib st ev).2 evs).2.wg = 0 := hw
    by_cases hl2 : (drainStep lib st ev).2.live s = true
    · exact List.mem_cons_of_mem _ (ih _ hstep hw2 hl2)
    · -- the goroutine of `s` left its loop at this step
      cases ev with
      | tee s2 b =>
        exfalso; apply hl2
        unfold drainStep; split <;> exact hl
      | scan s2 l =>
        exfalso; apply hl2
        unfold drainStep; split <;> exact hl
      | stop s2 err =>
        by_cases hs : s2 = s
        · subst hs
          cases err with
          | none => exact List.mem_cons_self _ _
          | some msg => exact absurd hw (drain_error_blocks lib st s2 msg evs hl h)
        · exfalso; apply hl2
          obtain ⟨wg, o, e⟩ := st
          cases s <;> cases s2 <;> cases err <;> cases o <;> cases e <;>
            simp_all [drainStep, DrainEvent.stream, DrainState.live, DrainState.finish]

/-- The part of a round up to the wait group leaves the canonical file alone. -/
theorem head_canon (fs : FS) (cmd : Cmd) (d pre : List Effect)
    (hd : d.all Effect.isDrain = true) (h : pre <+: Effect.create :: Effect.spawn cmd :: d) :
    (fs.replay pre).canon = fs.canon := by
  rcases List.prefix_cons_iff.mp h with h1 | ⟨t, h1, h2⟩
  · rw [h1]; rfl
  · rcases List.prefix_cons_iff.mp h2 with h3 | ⟨u, h3, h4⟩
    · rw [h1, h3]; rfl
    · rw [h1, h3, replay_cons, replay_cons]
      have : (fs.step .create).step (.spawn cmd) = ⟨some "", fs.canon, .swap⟩ := rfl
      rw [this, replay_drain _ _ _ (all_of_initial h4 hd)]

theorem head_state (fs : FS) (cmd : Cmd) (d : List Effect) (hd : d.all Effect.isDrain = true) :
    fs.replay (Effect.create :: Effect.spawn cmd :: d) = ⟨some (written d), fs.canon, .swap⟩ := by
  rw [replay_cons, replay_cons]
  have : (fs.step .create).step (.spawn cmd) = ⟨some "", fs.canon, .swap⟩ := rfl
  rw [this, replay_drain _ _ _ hd]
  simp

/-- Within one call of `roundInner` on a schedule, the canonical file is at
every moment what it was when the call began, or, if both drainers finished,
the complete combined output of this round. -/
theorem roundInner_canon (lib : Fmt) (done : Option CtxErr) (env : RoundEnv) (filter : String)
    (hwf : env.wellFormed = true) (fs : FS) (pre : List Effect)
    (h : pre <+: (roundInner lib done env filter).1) :
    (fs.replay pre).canon = fs.canon ∨
    (env.bothFinished ∧ (fs.replay pre).canon = some (combinedOutput env.sched)) := by
  have hd := drain_isDrain lib (driveScanner (driveScanner DrainState.init .stdout) .stderr)
    env.sched
  have hout : written (drain lib (driveScanner (driveScanner DrainState.init .stdout) .stderr)
      env.sched).1 = combinedOutput env.sched := drain_written lib _ env.sched hwf
  rcases roundInner_cases lib done env filter with (h0 | h0) | ⟨cmd, -, h0⟩ | ⟨cmd, hw, h0⟩
  · rw [h0] at h
    left
    rw [List.prefix_nil.mp h]
    rfl
  · rw [h0] at h
    left
    rcases List.prefix_cons_iff.mp h with h1 | ⟨t, h1, h2⟩
    · rw [h1]; rfl
    · rw [h1, List.prefix_nil.mp h2]; rfl
  · rw [h0] at h
    left
    exact head_canon fs cmd _ pre hd h
  · rw [h0] at h
    have hfin : env.bothFinished :=
      ⟨drain_released lib _ env.sched (by decide) hw .stdout rfl,
        drain_released lib _ env.sched (by decide) hw .stderr rfl⟩
    have h' : pre <+: (Effect.create :: Effect.spawn cmd ::
          (drain lib (driveScanner (driveScanner DrainState.init .stdout) .stderr)
            env.sched).1) ++
          ((if env.renameOk then [Effect.rename] else []) ++ (reconcile done env.exit).1) := by
      simpa using h
    rcases initial_append_cases h' with h1 | ⟨q, hq, h1⟩
    · left
      exact head_canon fs cmd _ pre hd h1
    · have hrec : (reconcile done env.exit).1.all Effect.isSilent = true :=
        all_of_isPrint Effect.isSilent (fun _ => rfl) _ (reconcile_isPrint _ _)
      rw [hq, replay_append, head_state fs cmd _ hd, hout]
      by_cases hr : env.renameOk = true
      · simp only [hr, if_true, List.singleton_append] at h1
        rcases List.prefix_cons_iff.mp h1 with h2 | ⟨t, h2, h3⟩
        · left
          rw [h2]
          rfl
        · right
          refine ⟨hfin, ?_⟩
          rw [h2, replay_cons, replay_silent _ _ (all_of_initial h3 hrec)]
          rfl
      · simp only [hr, List.nil_append] at h1
        left
        rw [replay_silent _ _ (all_of_initial h1 hrec)]

theorem round_canonOk (lib : Fmt) (all : List RoundEnv) (start : Option String)
    (env : RoundEnv) (henv : env ∈ all) (hwf : env.wellFormed = true) (filter : String)
    (fs : FS) (pre : List Effect)
    (hfs : CanonOk all start fs.canon) (h : pre <+: (round lib env filter).1) :
    CanonOk all start (fs.replay pre).canon := by
  rcases roundInner_canon lib _ env filter hwf fs pre h with h1 | ⟨hfin, h1⟩
  · rw [h1]
    exact hfs
  · exact Or.inr ⟨env, henv, hfin, h1⟩

theorem silent_canonOk (all : List RoundEnv) (start : Option String) (fs : FS)
    (l pre : List Effect) (hl : l.all Effect.isSilent = true)
    (hfs : CanonOk all start fs.canon) (h : pre <+: l) :
    CanonOk all start (fs.replay pre).canon := by
  rw [replay_silent _ _ (all_of_initial h hl)]
  exact hfs

theorem log_isSilent (verbose : Bool) (msg : String) :
    (log verbose msg).all Effect.isSilent = true :=
  all_of_isPrint Effect.isSilent (fun _ => rfl) _ (log_isPrint verbose msg)

theorem roundHead_isSilent (filter : String) (i : Int) :
    (log false ("round " ++ fmtInt i) ++ [Effect.callRound filter]).all Effect.isSilent
      = true := by
  rw [List.all_append, log_isSilent]
  rfl

/-- Every way an iteration of the driver loop can go has the same shape: the
line `round i` and the call, the effects of the round, and a tail that is
empty, or the error line, or the line `-> OK` followed by the later rounds. -/
theorem mainLoop_shape (lib : Fmt) (filter : String) (i : Int) (env : RoundEnv)
    (envs : List RoundEnv) :
    ∃ tail, (mainLoop lib filter i (env :: envs)).1 =
        (log false ("round " ++ fmtInt i) ++ [Effect.callRound filter]) ++
          ((round lib env filter).1 ++ tail) ∧
      (tail.all Effect.isSilent = true ∨
        ∃ msg, tail = log false msg ++ (mainLoop lib filter (wrapInt (i + 1)) envs).1) := by
  by_cases hs : ∀ e, (round lib env filter).2 ≠ .returned e
  · refine ⟨[], ?_, Or.inl rfl⟩
    rw [mainLoop_cons_stuck lib filter i env envs hs]
    simp only [List.append_nil, List.append_assoc, List.singleton_append]
  · push_neg at hs
    obtain ⟨e, he⟩ := hs
    cases e with
    | none =>
      refine ⟨_, ?_, Or.inr ⟨"round " ++ fmtInt i ++ " -> OK", rfl⟩⟩
      rw [mainLoop_cons_ok lib filter i env envs he]
      simp only [okRound, List.append_assoc, List.singleton_append, List.cons_append,
        List.nil_append]
    | some err =>
      refine ⟨log false ("round " ++ fmtInt i ++ " -> Error: " ++ err.message), ?_,
        Or.inl (log_isSilent _ _)⟩
      rw [mainLoop_cons_err lib filter i env envs err he]
      simp only [errRound, List.append_assoc, List.singleton_append, List.cons_append,
        List.nil_append]

theorem mainLoop_canonOk (lib : Fmt) (all : List RoundEnv) (start : Option String)
    (filter : String) (envs : List RoundEnv) (hsub : ∀ env ∈ envs, env ∈ all)
    (hwf : ∀ env ∈ envs, env.wellFormed = true) (i : Int)
    (fs : FS) (pre : List Effect) (hfs : CanonOk all start fs.canon)
    (h : pre <+: (mainLoop lib filter i envs).1) :
    CanonOk all start (fs.replay pre).canon := by
  induction envs generalizing i fs pre with
  | nil =>
    have : pre = [] := List.prefix_nil.mp h
    rw [this]
    exact hfs
  | cons env envs ih =>
    obtain ⟨tail, hshape, htail⟩ := mainLoop_shape lib filter i env envs
    have hround : ∀ q, q <+: (round lib env filter).1 →
        CanonOk all start (fs.replay q).canon := fun q hq =>
      round_canonOk lib all start env (hsub env (List.mem_cons_self _ _))
        (hwf env (List.mem_cons_self _ _)) filter fs q hfs hq
    rw [hshape] at h
    rcases initial_append_cases h with h1 | ⟨q, hq, h1⟩
    · exact silent_canonOk all start fs _ pre (roundHead_isSilent filter i) hfs h1
    · rw [hq, replay_append, replay_silent _ _ (roundHead_isSilent filter i)]
      rcases initial_append_cases h1 with h2 | ⟨t, ht, h2⟩
      · exact hround q h2
      · rw [ht, replay_append]
        have hmid := hround _ (List.prefix_refl _)
        rcases htail with hsil | ⟨msg, hmsg⟩
        · exact silent_canonOk all start _ _ t hsil hmid h2
        · rw [hmsg] at h2
          rcases initial_append_cases h2 with h3 | ⟨u, hu, h3⟩
          · exact silent_canonOk all start _ _ t (log_isSilent _ _) hmid h3
          · rw [hu, replay_append, replay_silent _ _ (log_isSilent _ _)]
            exact ih (fun e he => hsub e (List.mem_cons_of_mem _ he))
              (fun e he => hwf e (List.mem_cons_of_mem _ he)) _ _ u hmid h3

theorem writesToSwap_append (fs : FS) (a b : List Effect) :
    fs.writesToSwap (a ++ b) = (fs.writesToSwap a && (fs.replay a).writesToSwap b) := by
  induction a generalizing fs with
  | nil => rfl
  | cons e a ih =>
    rw [List.cons_append, replay_cons]
    cases e <;> simp only [FS.writesToSwap, ih, Bool.and_assoc]

theorem writesToSwap_silent (fs : FS) (l : List Effect) (h : l.all Effect.isSilent = true) :
    fs.writesToSwap l = true := by
  induction l generalizing fs with
  | nil => rfl
  | cons e l ih =>
    simp only [List.all_cons, Bool.and_eq_true] at h
    cases e <;> first | exact ih _ h.2 | simp [Effect.isSilent] at h

theorem writesToSwap_drain (c : String) (k : Option String) (l : List Effect)
    (h : l.all Effect.isDrain = true) :
    FS.writesToSwap ⟨some c, k, .swap⟩ l = true := by
  induction l generalizing c with
  | nil => rfl
  | cons e l ih =>
    simp only [List.all_cons, Bool.and_eq_true] at h
    cases e with
    | print t => exact ih c h.2
    | write b =>
      have : FS.step ⟨some c, k, .swap⟩ (.write b) = ⟨some (c ++ b), k, .swap⟩ := rfl
      simp only [FS.writesToSwap, this, ih (c ++ b) h.2, Bool.and_true, beq_self_eq_true]
    | callRound f => simp [Effect.isDrain] at h
    | create => simp [Effect.isDrain] at h
    | spawn cmd => simp [Effect.isDrain] at h
    | rename => simp [Effect.isDrain] at h

theorem writesToSwap_head (fs : FS) (cmd : Cmd) (d : List Effect)
    (hd : d.all Effect.isDrain = true) :
    fs.writesToSwap (Effect.create :: Effect.spawn cmd :: d) = true := by
  have : (fs.step .create).step (.spawn cmd) = ⟨some "", fs.canon, .swap⟩ := rfl
  simp only [FS.writesToSwap, this]
  exact writesToSwap_drain _ _ _ hd

/-- In a call of `roundInner` every tee write goes to the swap file. -/
theorem writesToSwap_roundInner (lib : Fmt) (done : Option CtxErr) (env : RoundEnv)
    (filter : String) (fs : FS) :
    fs.writesToSwap (roundInner lib done env filter).1 = true := by
  have hd := drain_isDrain lib (driveScanner (driveScanner DrainState.init .stdout) .stderr)
    env.sched
  rcases roundInner_cases lib done env filter with (h0 | h0) | ⟨cmd, -, h0⟩ | ⟨cmd, -, h0⟩
  · rw [h0]; rfl
  · rw [h0]; rfl
  · rw [h0]
    exact writesToSwap_head fs cmd _ hd
  · rw [h0]
    have hrec : (reconcile done env.exit).1.all Effect.isSilent = true :=
      all_of_isPrint Effect.isSilent (fun _ => rfl) _ (reconcile_isPrint _ _)
    have e : (Effect.create :: Effect.spawn cmd ::
        ((drain lib (driveScanner (driveScanner DrainState.init .stdout) .stderr) env.sched).1
          ++ ((if env.renameOk then [Effect.rename] else []) ++ (reconcile done env.exit).1)),
        (reconcile done env.exit).2).1 =
        (Effect.create :: Effect.spawn cmd ::
          (drain lib (driveScanner (driveScanner DrainState.init .stdout) .stderr)
            env.sched).1) ++
          ((if env.renameOk then [Effect.rename] else []) ++ (reconcile done env.exit).1) := by
      simp only [List.cons_append]
    rw [e, writesToSwap_append, writesToSwap_head fs cmd _ hd, Bool.true_and,
      writesToSwap_append]
    rw [Bool.and_eq_true]
    constructor
    · split <;> rfl
    · exact writesToSwap_silent _ _ hrec

theorem writesToSwap_mainLoop (lib : Fmt) (filter : String) (envs : List RoundEnv) (i : Int)
    (fs : FS) : fs.writesToSwap (mainLoop lib filter i envs).1 = true := by
  induction envs generalizing i fs with
  | nil => rfl
  | cons env envs ih =>
    obtain ⟨tail, hshape, htail⟩ := mainLoop_shape lib filter i env envs
    rw [hshape, writesToSwap_append, writesToSwap_silent _ _ (roundHead_isSilent filter i),
      Bool.true_and, writesToSwap_append]
    rw [Bool.and_eq_true]
    refine ⟨writesToSwap_roundInner lib _ env filter _, ?_⟩
    rcases htail with hsil | ⟨msg, hmsg⟩
    · exact writesToSwap_silent _ _ hsil
    · rw [hmsg, writesToSwap_append, writesToSwap_silent _ _ (log_isSilent _ _), Bool.true_and]
      exact ih _ _

theorem main2_effects (lib : Fmt) (args : List String) (envs : List RoundEnv) :
    (main2 lib args envs).1 = [] ∨
    (main2 lib args envs).1 =
      filterLine lib (argFilter args) ++ (mainLoop lib (argFilter args) 0 envs).1 := by
  by_cases hargs : args.length ≥ 3
  · left
    unfold main2
    rw [if_pos hargs]
    exact log_true "start"
  · right
    unfold main2
    rw [if_neg hargs, log_true]
    simp only [List.nil_append, filterLine]

theorem filterLine_isSilent (lib : Fmt) (filter : String) :
    (filterLine lib filter).all Effect.isSilent = true := by
  unfold filterLine
  split <;> exact log_isSilent _ _

/-- Claim C3: take any rounds whose steps form schedules, any state of the two
files, and any initial part of what `main2` does.  After it the canonical file
`/tmp/test.log` is either what it was at the start, or exactly the complete
combined output (the bytes of every tee read of stdout and of stderr, in the
order read) of one of the rounds in which both drainers reached the end of
their stream without error.  And every tee write of the whole run goes to the
swap file: the open file is still at `/tmp/test.log.swp` when it is written. -/
theorem canonical_log_complete_or_untouched (lib : Fmt) (args : List String)
    (envs : List RoundEnv) (fs : FS) (pre : List Effect)
    (hwf : ∀ env ∈ envs, env.wellFormed = true)
    (h : pre <+: (main2 lib args envs).1) :
    ((fs.replay pre).canon = fs.canon ∨
      ∃ env ∈ envs, DrainEvent.stop .stdout none ∈ env.sched ∧
        DrainEvent.stop .stderr none ∈ env.sched ∧
        (fs.replay pre).canon = some (combinedOutput env.sched)) ∧
    fs.writesToSwap (main2 lib args envs).1 = true := by
  rcases main2_effects lib args envs with hm | hm
  · rw [hm] at h ⊢
    rw [List.prefix_nil.mp h]
    exact ⟨Or.inl rfl, rfl⟩
  · rw [hm] at h ⊢
    have hf := filterLine_isSilent lib (argFilter args)
    constructor
    · have start : CanonOk envs fs.canon fs.canon := Or.inl rfl
      have key : CanonOk envs fs.canon (fs.replay pre).canon := by
        rcases initial_append_cases h with h1 | ⟨q, hq, h1⟩
        · exact silent_canonOk envs fs.canon fs _ pre hf start h1
        · rw [hq, replay_append, replay_silent _ _ hf]
          exact mainLoop_canonOk lib envs fs.canon _ envs (fun _ he => he) hwf 0 fs q start h1
      rcases key with k | ⟨env, henv, hfin, k⟩
      · exact Or.inl k
      · exact Or.inr ⟨env, henv, hfin.1, hfin.2, k⟩
    · rw [writesToSwap_append, writesToSwap_silent _ _ hf, Bool.true_and]
      exact writesToSwap_mainLoop lib _ envs 0 _

theorem canonical_log_complete_or_untouched_witness :
    (((FS.replay ⟨none, some "old", .detached⟩
        ((main2 plainFmt ["waterhammer"] [mixedRound, failingRound]).1.take 17)).canon =
          (⟨none, some "old", .detached⟩ : FS).canon ∨
      ∃ env ∈ [mixedRound, failingRound], DrainEvent.stop .stdout none ∈ env.sched ∧
        DrainEvent.stop .stderr none ∈ env.sched ∧
        (FS.replay ⟨none, some "old", .detached⟩
          ((main2 plainFmt ["waterhammer"] [mixedRound, failingRound]).1.take 17)).canon =
            some (combinedOutput env.sched)) ∧
      FS.writesToSwap ⟨none, some "old", .detached⟩
        (main2 plainFmt ["waterhammer"] [mixedRound, failingRound]).1 = true) ∧
    FS.replay ⟨none, some "old", .detached⟩
        ((main2 plainFmt ["waterhammer"] [mixedRound, failingRound]).1.take 17) =
      ⟨some "--- FAIL: TestA\n",
        some "warming up\n=== RUN   TestA\n--- PASS: TestA\n", .swap⟩ ∧
    combinedOutput mixedRound.sched = "warming up\n=== RUN   TestA\n--- PASS: TestA\n" :=
  ⟨canonical_log_complete_or_untouched plainFmt ["waterhammer"] [mixedRound, failingRound]
    ⟨none, some "old", .detached⟩ _ (by decide) (List.take_prefix 17 _), by decide, by decide⟩

end Waterhammer
